import Mathlib

/-!
# Cashbook-PWA: verification of the ledger synchronization and access core

Shallow embedding of the repository's core logic:
* the SQL schema types and `security definer` functions / triggers from the
  Supabase migrations (`enforce_entry_rules`, `handle_delete_request_review`,
  `normalize_member_permissions`, the `is_workspace_*` / `can_*` predicates,
  `set_workspace_member_access_disabled`, `remove_workspace_member`,
  `respond_workspace_access_request`);
* the client services (`src/lib/offlineQueue.ts`, `src/services/entries.ts`,
  the delete-request and workspace member services).

Identifiers (user ids, workspace ids, row ids) are modelled as `Nat`,
timestamps as `Nat`, SQL tables as Lean lists of rows.  `auth.uid()` is an
`Option Nat` (`none` = unauthenticated).  Fallible SQL functions return
`Except String α` where an exception message models `raise exception`.
`audit_logs` inserts are not modelled: no claim concerns the audit table.
-/

namespace Cashbook

inductive AppRole
  | admin
  | editor
deriving DecidableEq, Repr

inductive DashboardScope
  | full
  | shift
deriving DecidableEq, Repr

inductive CategoryType
  | income
  | expense
deriving DecidableEq, Repr

inductive CashDirection
  | cash_in
  | cash_out
deriving DecidableEq, Repr

inductive EntryStatus
  | active
  | deleted
deriving DecidableEq, Repr

inductive DeleteRequestStatus
  | pending
  | approved
  | rejected
deriving DecidableEq, Repr

inductive AccessRequestStatus
  | pending
  | accepted
  | rejected
  | cancelled
deriving DecidableEq, Repr

/-- A row of `public.workspace_members` (after migration `part_018` added
`access_disabled`). -/
structure Member where
  workspace_id : Nat
  user_id : Nat
  role : AppRole
  can_delete_entries : Bool
  can_manage_categories : Bool
  can_manage_users : Bool
  dashboard_scope : DashboardScope
  access_disabled : Bool
deriving DecidableEq, Repr

/-- A row of `public.categories` (fields the core logic reads). -/
structure Category where
  id : Nat
  workspace_id : Nat
  type : CategoryType
  is_active : Bool
deriving DecidableEq, Repr

/-- A row of `public.entries`. -/
structure Entry where
  id : Nat
  workspace_id : Nat
  direction : CashDirection
  amount : Int
  category_id : Nat
  entry_at : Nat
  created_by : Nat
  status : EntryStatus
  deleted_at : Option Nat
  deleted_by : Option Nat
deriving DecidableEq, Repr

/-- A row of `public.delete_requests`. -/
structure DeleteRequest where
  id : Nat
  workspace_id : Nat
  entry_id : Nat
  requested_by : Nat
  reason : String
  status : DeleteRequestStatus
  reviewed_by : Option Nat
  reviewed_at : Option Nat
  review_note : Option String
deriving DecidableEq, Repr

/-- A row of `public.workspace_access_requests`. -/
structure AccessRequest where
  id : Nat
  workspace_id : Nat
  target_user_id : Nat
  requested_by : Nat
  role : AppRole
  can_delete_entries : Bool
  can_manage_categories : Bool
  status : AccessRequestStatus
deriving DecidableEq, Repr

/-- The server-side tables the claims touch. -/
structure ServerState where
  members : List Member
  categories : List Category
  entries : List Entry
  delete_requests : List DeleteRequest
deriving DecidableEq, Repr

/-! ## Authorization predicates (part_018 versions, `access_disabled` aware) -/

/-- The (first) enabled membership row of `auth.uid()` in a workspace:
the `select ... from workspace_members wm where wm.workspace_id = _workspace_id
and wm.user_id = auth.uid() and wm.access_disabled = false` used by every
part_018 authorization function. -/
def enabledRow (members : List Member) (ws : Nat) (uid : Option Nat) : Option Member :=
  match uid with
  | none => none
  | some u =>
      members.find? fun m =>
        m.workspace_id == ws && m.user_id == u && m.access_disabled == false

/-- `public.is_workspace_member` (part_018). -/
def is_workspace_member (members : List Member) (ws : Nat) (uid : Option Nat) : Bool :=
  (enabledRow members ws uid).isSome

/-- `public.is_workspace_admin` (part_018). -/
def is_workspace_admin (members : List Member) (ws : Nat) (uid : Option Nat) : Bool :=
  match enabledRow members ws uid with
  | some m => m.role == AppRole.admin
  | none => false

/-- `public.can_manage_users` (part_018). -/
def can_manage_users (members : List Member) (ws : Nat) (uid : Option Nat) : Bool :=
  match enabledRow members ws uid with
  | some m => m.role == AppRole.admin || m.can_manage_users
  | none => false

/-- `public.can_manage_categories` (part_018). -/
def can_manage_categories (members : List Member) (ws : Nat) (uid : Option Nat) : Bool :=
  match enabledRow members ws uid with
  | some m => m.role == AppRole.admin || m.can_manage_categories
  | none => false

/-- `public.can_delete_entries` (part_018). -/
def can_delete_entries (members : List Member) (ws : Nat) (uid : Option Nat) : Bool :=
  match enabledRow members ws uid with
  | some m => m.role == AppRole.admin || m.can_delete_entries
  | none => false

/-! ## Triggers on `workspace_members` and `entries` -/

/-- `public.normalize_member_permissions` trigger (part_016): before every
insert/update on `workspace_members`, an admin row gets all capability flags
forced `true` and `dashboard_scope = full`. -/
def normalize_member_permissions (m : Member) : Member :=
  if m.role = AppRole.admin then
    { m with
        can_delete_entries := true
        can_manage_categories := true
        can_manage_users := true
        dashboard_scope := DashboardScope.full }
  else m

/-- The category resolution done by `enforce_entry_rules`:
`select c.type from categories c where c.workspace_id = new.workspace_id and
c.id = new.category_id and c.is_active = true`. -/
def lookupCategory (cats : List Category) (ws cid : Nat) : Option Category :=
  cats.find? fun c => c.workspace_id == ws && c.id == cid && c.is_active == true

/-- An entry write as seen by the `trg_entries_enforce_rules` trigger. -/
inductive EntryWrite
  | insert (new : Entry)
  | update (old : Entry) (new : Entry)
deriving DecidableEq, Repr

/-- The row the trigger is asked to persist. -/
def EntryWrite.newRow : EntryWrite → Entry
  | .insert new => new
  | .update _ new => new

/-- Shared tail of `public.enforce_entry_rules` (part_016): category lookup,
direction/type check, and coercion of `deleted_at` / `deleted_by`. -/
def entryRulesTail (cats : List Category) (caller : Option Nat) (now : Nat)
    (new : Entry) : Except String Entry :=
  match lookupCategory cats new.workspace_id new.category_id with
  | none => .error "Category is invalid or inactive"
  | some c =>
      if new.direction = CashDirection.cash_out ∧ c.type ≠ CategoryType.expense then
        .error "cash_out requires an expense category"
      else if new.direction = CashDirection.cash_in ∧ c.type ≠ CategoryType.income then
        .error "cash_in requires an income category"
      else if new.status = EntryStatus.active then
        .ok { new with deleted_at := none, deleted_by := none }
      else
        .ok { new with
                deleted_at := some (new.deleted_at.getD now)
                deleted_by := new.deleted_by.or caller }

/-- `public.enforce_entry_rules` trigger (part_016), fired before every
insert/update on `public.entries`.  Returns the row actually persisted, or
the raised exception. -/
def enforce_entry_rules (members : List Member) (cats : List Category)
    (caller : Option Nat) (now : Nat) : EntryWrite → Except String Entry
  | .insert new => entryRulesTail cats caller now new
  | .update old new =>
      if old.id ≠ new.id ∨ old.workspace_id ≠ new.workspace_id then
        .error "id/workspace_id cannot be changed"
      else if old.created_by ≠ new.created_by then
        .error "created_by cannot be changed"
      else if old.status = EntryStatus.deleted then
        .error "Deleted entries are immutable"
      else if new.status = EntryStatus.deleted ∧ old.status ≠ EntryStatus.deleted ∧
          can_delete_entries members old.workspace_id caller = false then
        .error "No permission to delete this entry"
      else entryRulesTail cats caller now new

/-! ## Membership RPCs (part_018) and the direct client update path -/

/-- Count of enabled admins of a workspace: `select count(*) from
workspace_members wm where wm.workspace_id = _workspace_id and wm.role =
'admin' and wm.access_disabled = false`. -/
def enabledAdminCount (members : List Member) (ws : Nat) : Nat :=
  (members.filter fun m =>
    m.workspace_id == ws && m.role == AppRole.admin && m.access_disabled == false).length

/-- `public.set_workspace_member_access_disabled` (part_018).  The row update
fires `normalize_member_permissions`.  The audit insert is omitted. -/
def set_workspace_member_access_disabled (caller : Option Nat) (ws target : Nat)
    (disabled : Bool) (members : List Member) : Except String (List Member) :=
  match caller with
  | none => .error "Authentication required"
  | some cu =>
      if is_workspace_admin members ws caller = false then
        .error "Only admin can change workspace access"
      else if target = cu then
        .error "Admin cannot disable self"
      else
        match members.find? (fun m => m.workspace_id == ws && m.user_id == target) with
        | none => .error "User is not part of this workspace"
        | some t =>
            if disabled = true ∧ t.role = AppRole.admin ∧ t.access_disabled = false ∧
                enabledAdminCount members ws ≤ 1 then
              .error "Cannot disable the last active admin"
            else
              .ok (members.map fun m =>
                if m.workspace_id == ws && m.user_id == target then
                  normalize_member_permissions { m with access_disabled := disabled }
                else m)

/-- `public.remove_workspace_member` (part_018).  The audit insert is
omitted. -/
def remove_workspace_member (caller : Option Nat) (ws target : Nat)
    (members : List Member) : Except String (List Member) :=
  match caller with
  | none => .error "Authentication required"
  | some cu =>
      if is_workspace_admin members ws caller = false then
        .error "Only admin can remove users"
      else if target = cu then
        .error "Admin cannot remove self"
      else
        match members.find? (fun m => m.workspace_id == ws && m.user_id == target) with
        | none => .error "User is not part of this workspace"
        | some t =>
            if t.role = AppRole.admin ∧ t.access_disabled = false ∧
                enabledAdminCount members ws ≤ 1 then
              .error "Cannot remove the last active admin from workspace"
            else
              .ok (members.filter fun m =>
                ¬ (m.workspace_id == ws && m.user_id == target))

/-- The column payload built by the client `updateWorkspaceMemberRole`
(workspace member service in `main.tsx`). -/
structure MemberRolePayload where
  role : AppRole
  can_delete_entries : Bool
  can_manage_categories : Bool
  can_manage_users : Bool
  dashboard_scope : DashboardScope
deriving DecidableEq, Repr

/-- The payload `updateWorkspaceMemberRole` sends for a given role choice. -/
def memberRolePayload (role : AppRole) (allowDeleteForEditor : Bool)
    (allowManageCategoriesForEditor : Bool) : MemberRolePayload :=
  if role = AppRole.admin then
    ⟨AppRole.admin, true, true, true, DashboardScope.full⟩
  else
    ⟨AppRole.editor, allowDeleteForEditor, allowManageCategoriesForEditor, false,
      DashboardScope.shift⟩

/-- The client `updateWorkspaceMemberRole`: a direct
`update workspace_members set ... where workspace_id = ws and user_id = target`
through PostgREST.  Row visibility is the `workspace_members_update_admin`
policy (part_016): `using (can_manage_users(workspace_id)) with check
(can_manage_users(workspace_id))`; both clauses read the statement-start
snapshot of the table, so a row is updated iff the caller passed
`can_manage_users` before the statement.  Each updated row fires
`normalize_member_permissions`.  Rows the policy hides are silently left
unchanged (zero-row update, no error). -/
def updateWorkspaceMemberRole (caller : Option Nat) (ws target : Nat)
    (p : MemberRolePayload) (members : List Member) : List Member :=
  members.map fun m =>
    if m.workspace_id == ws && m.user_id == target &&
        can_manage_users members ws caller then
      normalize_member_permissions
        { m with
            role := p.role
            can_delete_entries := p.can_delete_entries
            can_manage_categories := p.can_manage_categories
            can_manage_users := p.can_manage_users
            dashboard_scope := p.dashboard_scope }
    else m

/-! ## Delete-request review (part_016 trigger + client service) -/

/-- The `update public.entries ... where e.workspace_id = ws and e.id = eid
and e.status = 'active'` performed inside `handle_delete_request_review` on
approval. -/
def softDeleteEntries (ws eid : Nat) (reviewer : Option Nat) (now : Nat)
    (entries : List Entry) : List Entry :=
  entries.map fun e =>
    if e.workspace_id == ws && e.id == eid && e.status == EntryStatus.active then
      { e with
          status := EntryStatus.deleted
          deleted_at := some (e.deleted_at.getD now)
          deleted_by := reviewer }
    else e

/-- `public.handle_delete_request_review` trigger (part_016), fired before
every update on `public.delete_requests`.  Returns the persisted request row
together with the entries table after the approval side effect.  The audit
insert is omitted. -/
def handle_delete_request_review (caller : Option Nat) (now : Nat)
    (old new : DeleteRequest) (entries : List Entry) :
    Except String (DeleteRequest × List Entry) :=
  if old.status ≠ DeleteRequestStatus.pending then
    .error "Delete request already finalized"
  else if new.status = DeleteRequestStatus.pending then
    .error "status must move to approved or rejected"
  else
    let r := { new with
                 reviewed_by := new.reviewed_by.or caller
                 reviewed_at := some (new.reviewed_at.getD now) }
    if r.status = DeleteRequestStatus.approved then
      .ok (r, softDeleteEntries r.workspace_id r.entry_id r.reviewed_by now entries)
    else
      .ok (r, entries)

/-- The row loop of the client `reviewDeleteRequest` update statement:
rows matching `id = requestId and status = 'pending'` that are visible under
the `delete_requests_update_admin` policy (`using can_delete_entries`) are
updated to the decision and fire `handle_delete_request_review`; every other
row is untouched.  (The policy's `with check (status in (approved,rejected))`
duplicates the trigger's pending check on the filtered rows and is folded
into the trigger here.) -/
def reviewDeleteRequestRows (members : List Member) (caller : Option Nat)
    (now requestId : Nat) (status : DeleteRequestStatus) (note : Option String) :
    List DeleteRequest → List Entry → Except String (List DeleteRequest × List Entry)
  | [], entries => .ok ([], entries)
  | r :: rest, entries =>
      if r.id == requestId && r.status == DeleteRequestStatus.pending &&
          can_delete_entries members r.workspace_id caller then
        match handle_delete_request_review caller now r
            { r with status := status, review_note := note } entries with
        | .error msg => .error msg
        | .ok (r', entries') =>
            match reviewDeleteRequestRows members caller now requestId status note
                rest entries' with
            | .error msg => .error msg
            | .ok (rest', entries'') => .ok (r' :: rest', entries'')
      else
        match reviewDeleteRequestRows members caller now requestId status note
            rest entries with
        | .error msg => .error msg
        | .ok (rest', entries') => .ok (r :: rest', entries')

/-- The client `reviewDeleteRequest(requestId, status, note)` (delete-request
service in `main.tsx`): `update delete_requests set status, review_note
where id = requestId and status = 'pending'`.  A request that is no longer
pending matches no row, so the statement succeeds without touching
anything. -/
def reviewDeleteRequest (caller : Option Nat) (now requestId : Nat)
    (status : DeleteRequestStatus) (note : Option String) (st : ServerState) :
    Except String ServerState :=
  match reviewDeleteRequestRows st.members caller now requestId status note
      st.delete_requests st.entries with
  | .error msg => .error msg
  | .ok (reqs, entries) =>
      .ok { st with delete_requests := reqs, entries := entries }

/-! ## Direct entry deletion (`src/services/entries.ts`) -/

/-- The row loop of `deleteEntryDirect`'s update statement: rows matching
`workspace_id = ws and id = entryId and status = 'active'` that are visible
under the `entries_update_member` policy (`using is_workspace_member`) are
soft-deleted and fire `enforce_entry_rules`; every other row is untouched. -/
def deleteEntryRows (members : List Member) (cats : List Category)
    (caller : Option Nat) (now ws entryId userId : Nat) :
    List Entry → Except String (List Entry)
  | [] => .ok []
  | e :: rest =>
      if e.workspace_id == ws && e.id == entryId && e.status == EntryStatus.active &&
          is_workspace_member members ws caller then
        match enforce_entry_rules members cats caller now
            (.update e { e with
                           status := EntryStatus.deleted
                           deleted_by := some userId
                           deleted_at := some now }) with
        | .error msg => .error msg
        | .ok e' =>
            match deleteEntryRows members cats caller now ws entryId userId rest with
            | .error msg => .error msg
            | .ok rest' => .ok (e' :: rest')
      else
        match deleteEntryRows members cats caller now ws entryId userId rest with
        | .error msg => .error msg
        | .ok rest' => .ok (e :: rest')

/-- `deleteEntryDirect(workspaceId, entryId, userId)`
(`src/services/entries.ts`): first the `can_delete_entries` RPC, throwing if
it denies; then an update scoped to `status = 'active'` rows of the entry. -/
def deleteEntryDirect (caller : Option Nat) (now ws entryId userId : Nat)
    (st : ServerState) : Except String ServerState :=
  if can_delete_entries st.members ws caller = false then
    .error "You do not have permission to delete entries directly."
  else
    match deleteEntryRows st.members st.categories caller now ws entryId userId
        st.entries with
    | .error msg => .error msg
    | .ok entries => .ok { st with entries := entries }

/-! ## Access-request response
(`supabase/migrations/202602200002_workspace_access_requests.sql`) -/

/-- The `workspace_members` values list built by
`respond_workspace_access_request` on acceptance. -/
def requestedMemberRow (req : AccessRequest) : Member :=
  { workspace_id := req.workspace_id
    user_id := req.target_user_id
    role := req.role
    can_delete_entries :=
      if req.role = AppRole.admin then true else req.can_delete_entries
    can_manage_categories :=
      if req.role = AppRole.admin then true else req.can_manage_categories
    can_manage_users := req.role = AppRole.admin
    dashboard_scope :=
      if req.role = AppRole.admin then DashboardScope.full else DashboardScope.shift
    access_disabled := false }

/-- The conflict key of the upsert: `on conflict (workspace_id, user_id)`. -/
def memberKeyMatches (req : AccessRequest) (m : Member) : Bool :=
  m.workspace_id == req.workspace_id && m.user_id == req.target_user_id

/-- The `do update set role = excluded.role, ...` column assignment applied
to a conflicting membership row (`access_disabled` is not in the column list
and survives); the row update fires `normalize_member_permissions`. -/
def applyRequestedColumns (req : AccessRequest) (m : Member) : Member :=
  normalize_member_permissions
    { m with
        role := (requestedMemberRow req).role
        can_delete_entries := (requestedMemberRow req).can_delete_entries
        can_manage_categories := (requestedMemberRow req).can_manage_categories
        can_manage_users := (requestedMemberRow req).can_manage_users
        dashboard_scope := (requestedMemberRow req).dashboard_scope }

/-- The membership upsert performed by `respond_workspace_access_request` on
acceptance: `insert into workspace_members ... on conflict (workspace_id,
user_id) do update set ...` with the `excluded.*` values.  Insert and
conflicting update both fire `normalize_member_permissions`. -/
def upsertMemberFromRequest (req : AccessRequest) (members : List Member) :
    List Member :=
  if members.any (memberKeyMatches req) then
    members.map fun m =>
      if memberKeyMatches req m then applyRequestedColumns req m else m
  else
    members ++ [normalize_member_permissions (requestedMemberRow req)]

/-- `lower(btrim(s))` — the normalization
`respond_workspace_access_request` applies to `_decision`, implemented over
the character list (whitespace trim on both ends, then lowercasing). -/
def sqlTrimLower (s : String) : String :=
  ⟨((s.data.dropWhile (·.isWhitespace)).reverse.dropWhile
      (·.isWhitespace)).reverse.map Char.toLower⟩

/-- `public.respond_workspace_access_request(_request_id, _decision)`.
On accept: upserts the membership row and marks the request accepted; on
reject: marks it rejected; returns the request's workspace id.  The
`access_disabled` column of an existing conflicting row is not in the
update's column list and survives.  The audit insert and the
`reviewed_at`/`reviewed_by` bookkeeping columns of the request row are not
modelled (no claim reads them); the `_now` argument keeps the call shape. -/
def respond_workspace_access_request (caller : Option Nat) (_now requestId : Nat)
    (decision : String) (requests : List AccessRequest) (members : List Member) :
    Except String (Nat × List AccessRequest × List Member) :=
  match caller with
  | none => .error "Authentication required"
  | some cu =>
      let d := sqlTrimLower decision
      if d ≠ "accept" ∧ d ≠ "reject" then
        .error "Decision must be accept or reject"
      else
        match requests.find? (fun r =>
            r.id == requestId && r.target_user_id == cu &&
            r.status == AccessRequestStatus.pending) with
        | none => .error "Request not found or already handled"
        | some req =>
            let newStatus :=
              if d = "accept" then AccessRequestStatus.accepted
              else AccessRequestStatus.rejected
            let requests' := requests.map fun r =>
              if r.id == req.id then { r with status := newStatus } else r
            if d = "accept" then
              .ok (req.workspace_id, requests', upsertMemberFromRequest req members)
            else
              .ok (req.workspace_id, requests', members)

/-! ## Offline queue (`src/lib/offlineQueue.ts`) -/

/-- The payload of a queued entry creation (`EntryInsertInput` in
`src/types/domain.ts`, string/number fields modelled as `Nat`/`Int`). -/
structure EntryInsertInput where
  workspace_id : Nat
  direction : CashDirection
  amount : Int
  category_id : Nat
  entry_at : Option Nat
  created_by : Nat
deriving DecidableEq, Repr

/-- A queued action (`QueueAction` in `offlineQueue.ts`; the only action type
is `add_entry`). -/
structure QueueAction where
  id : Nat
  payload : EntryInsertInput
  createdAt : Nat
deriving DecidableEq, Repr

/-- What the durable slot `cashbook.offline.queue.v1` can hold, as seen by
`loadQueue`: `localStorage.getItem` may find nothing, the stored text may
fail `JSON.parse`, it may parse to a non-array, or it parses to an array of
actions. -/
inductive StoredValue
  | absent
  | malformedJson
  | jsonNonArray
  | jsonArray (items : List QueueAction)
deriving DecidableEq, Repr

/-- `loadQueue` (`offlineQueue.ts`): missing key → `[]`; `JSON.parse` throw
caught → `[]`; parsed non-array → `[]`; otherwise the parsed array. -/
def loadQueue : StoredValue → List QueueAction
  | .absent => []
  | .malformedJson => []
  | .jsonNonArray => []
  | .jsonArray items => items

/-- `saveQueue` (`offlineQueue.ts`): `setItem(JSON.stringify(items))`. -/
def saveQueue (items : List QueueAction) : StoredValue :=
  .jsonArray items

/-- `enqueueEntry(input)` (`offlineQueue.ts`): loads the queue, pushes a new
action carrying a freshly generated id (`Date.now()`-based; modelled as the
`newId` argument) and the current timestamp, saves, and returns nothing
(the TS function's return type is `void`, modelled as `Unit`). -/
def enqueueEntry (input : EntryInsertInput) (newId now : Nat) (s : StoredValue) :
    Unit × StoredValue :=
  ((), saveQueue (loadQueue s ++ [⟨newId, input, now⟩]))

/-- `queueSize()` (`offlineQueue.ts`). -/
def queueSize (s : StoredValue) : Nat :=
  (loadQueue s).length

/-- The `for (const action of queue)` loop of `flushQueue`: each action is
attempted exactly once via the handler (`true` = the awaited `addEntry`
resolved, `false` = it threw) and failures are pushed onto `remaining` in
encounter order. -/
def flushLoop (handler : QueueAction → Bool) : List QueueAction → List QueueAction
  | [] => []
  | a :: rest =>
      if handler a then flushLoop handler rest
      else a :: flushLoop handler rest

/-- The per-item attempt trace of the `flushQueue` loop, in loop order:
each visited action paired with its handler outcome. -/
def flushTrace (handler : QueueAction → Bool) :
    List QueueAction → List (QueueAction × Bool)
  | [] => []
  | a :: rest => (a, handler a) :: flushTrace handler rest

/-- `flushQueue(handlers)` (`offlineQueue.ts`): loads the queue, returns
immediately when it is empty, otherwise attempts every action in FIFO order
and saves the failed ones; the TS function resolves with no value
(`Promise<void>`, modelled as `Unit`). -/
def flushQueue (handler : QueueAction → Bool) (s : StoredValue) :
    Unit × StoredValue :=
  let queue := loadQueue s
  if queue.isEmpty then ((), s)
  else ((), saveQueue (flushLoop handler queue))

/-- Number of successfully processed actions of a flush run — an observer
the spec's `{processed, failed}` contract would need. -/
def processedCount (handler : QueueAction → Bool) (q : List QueueAction) : Nat :=
  ((flushTrace handler q).filter fun ab => ab.2 == true).length

/-- Number of failed actions of a flush run. -/
def failedCount (handler : QueueAction → Bool) (q : List QueueAction) : Nat :=
  ((flushTrace handler q).filter fun ab => ab.2 == false).length

/-! ## Entry listing (`src/services/entries.ts`) -/

/-- Descending insertion into a list sorted by `entry_at` descending —
the comparison `order by entry_at desc` resolves rows by. -/
def insertByEntryAtDesc (e : Entry) : List Entry → List Entry
  | [] => [e]
  | x :: xs =>
      if e.entry_at ≤ x.entry_at then x :: insertByEntryAtDesc e xs
      else e :: x :: xs

/-- `order by entry_at desc` over a list of rows. -/
def orderByEntryAtDesc : List Entry → List Entry
  | [] => []
  | e :: rest => insertByEntryAtDesc e (orderByEntryAtDesc rest)

/-- `listEntries(workspaceId, limit = 80)` (`src/services/entries.ts`):
the server resolves `.eq(workspace_id).order(entry_at desc).limit(limit)` —
filter, sort descending, truncate — and only then the client filters the
fetched rows to `status === "active"`. -/
def listEntries (ws limit : Nat) (entries : List Entry) : List Entry :=
  ((orderByEntryAtDesc (entries.filter fun e => e.workspace_id == ws)).take
      limit).filter
    fun e => e.status == EntryStatus.active

/-- `set_workspace_member_access_disabled` seen at the level of the whole
server state: the RPC touches only the `workspace_members` table — the
entries table (and with it every entry's `created_by` attribution) is not in
its write set. -/
def set_workspace_member_access_disabled_state (caller : Option Nat)
    (ws target : Nat) (disabled : Bool) (st : ServerState) :
    Except String ServerState :=
  match set_workspace_member_access_disabled caller ws target disabled st.members with
  | .error msg => .error msg
  | .ok ms => .ok { st with members := ms }

/-- `true` iff the call raised (modelled) an exception. -/
def isErr {α : Type} : Except String α → Bool
  | .error _ => true
  | .ok _ => false

/-! ## Helper lemmas -/

theorem flushLoop_eq_filter (h : QueueAction → Bool) (l : List QueueAction) :
    flushLoop h l = l.filter fun a => !h a := by
  induction l with
  | nil => rfl
  | cons a rest ih =>
      cases hha : h a <;> simp [flushLoop, hha, ih, List.filter_cons]

theorem flushTrace_map_fst (h : QueueAction → Bool) (l : List QueueAction) :
    (flushTrace h l).map Prod.fst = l := by
  induction l with
  | nil => rfl
  | cons a rest ih => simp [flushTrace, ih]

theorem loadQueue_saveQueue (l : List QueueAction) :
    loadQueue (saveQueue l) = l := rfl

/-! ## Claims -/

/-- **C8.** For every content of the durable queue slot — key absent,
malformed JSON, or JSON that is not an array — `loadQueue` returns the empty
list instead of throwing, so `queueSize`, `enqueueEntry` and `flushQueue`
are total on corrupt persisted state, and the first `enqueueEntry` after such
corruption discards the unreadable content and persists a fresh one-element
queue. -/
theorem C8_loadQueue_total_on_corruption (s : StoredValue)
    (hcorrupt : s = StoredValue.absent ∨ s = StoredValue.malformedJson ∨
      s = StoredValue.jsonNonArray) :
    loadQueue s = [] ∧ queueSize s = 0 ∧
    (∀ h, flushQueue h s = ((), s)) ∧
    (∀ input newId now,
      (enqueueEntry input newId now s).2 = StoredValue.jsonArray [⟨newId, input, now⟩]) := by
  rcases hcorrupt with rfl | rfl | rfl <;>
    exact ⟨rfl, rfl, fun _ => rfl, fun _ _ _ => rfl⟩

/-- Witness for C8 at the malformed-JSON slot. -/
theorem C8_witness :
    loadQueue StoredValue.malformedJson = [] ∧
    queueSize StoredValue.malformedJson = 0 ∧
    (enqueueEntry ⟨1, CashDirection.cash_in, 5, 1, none, 1⟩ 1 2
        StoredValue.malformedJson).2 =
      StoredValue.jsonArray [⟨1, ⟨1, CashDirection.cash_in, 5, 1, none, 1⟩, 2⟩] := by
  have h := C8_loadQueue_total_on_corruption StoredValue.malformedJson
    (Or.inr (Or.inl rfl))
  exact ⟨h.1, h.2.1, h.2.2.2 _ _ _⟩

/-- **C4.** From any starting queue state, after enqueueing `A` then `B`, a
flush whose handler succeeds on everything already queued and on `A` but
throws on `B` leaves the queue containing exactly `[B]`; a subsequent flush
whose handler always succeeds leaves the queue empty; and the flush loop
attempts exactly the queued actions, each once, in FIFO order. -/
theorem C4_flush_roundtrip (s : StoredValue) (A B : QueueAction)
    (h h2 : QueueAction → Bool)
    (hA : h A = true) (hB : h B = false)
    (hrest : ∀ x ∈ loadQueue s, h x = true)
    (h2all : ∀ x, h2 x = true) :
    loadQueue (flushQueue h
        (enqueueEntry B.payload B.id B.createdAt
          (enqueueEntry A.payload A.id A.createdAt s).2).2).2 = [B] ∧
    (flushTrace h (loadQueue
        (enqueueEntry B.payload B.id B.createdAt
          (enqueueEntry A.payload A.id A.createdAt s).2).2)).map Prod.fst =
      loadQueue s ++ [A, B] ∧
    loadQueue (flushQueue h2 (flushQueue h
        (enqueueEntry B.payload B.id B.createdAt
          (enqueueEntry A.payload A.id A.createdAt s).2).2).2).2 = [] := by
  have hq2 : loadQueue (enqueueEntry B.payload B.id B.createdAt
      (enqueueEntry A.payload A.id A.createdAt s).2).2 =
      loadQueue s ++ [A, B] := by
    simp [enqueueEntry, saveQueue, loadQueue]
  have hfilter : (loadQueue s ++ [A, B]).filter (fun a => !h a) = [B] := by
    rw [List.filter_append]
    have h1 : (loadQueue s).filter (fun a => !h a) = [] := by
      rw [List.filter_eq_nil_iff]
      intro a ha
      simp [hrest a ha]
    rw [h1]
    simp [List.filter_cons, hA, hB]
  have hne : ((loadQueue s ++ [A, B]).isEmpty) = false := by
    cases hl : loadQueue s ++ [A, B] with
    | nil => simp at hl
    | cons x xs => rfl
  have hflush1 : flushQueue h (enqueueEntry B.payload B.id B.createdAt
      (enqueueEntry A.payload A.id A.createdAt s).2).2 =
      ((), saveQueue [B]) := by
    rw [flushQueue, hq2]
    simp only [hne, Bool.false_eq_true, if_false, flushLoop_eq_filter, hfilter]
  refine ⟨?_, ?_, ?_⟩
  · rw [hflush1]
    exact loadQueue_saveQueue [B]
  · rw [hq2, flushTrace_map_fst]
  · rw [hflush1]
    show loadQueue (flushQueue h2 (saveQueue [B])).2 = []
    rw [flushQueue]
    simp [loadQueue, saveQueue, flushLoop, h2all B]

/-- Witness for C4: empty starting slot, two concrete queued creates, and a
handler that accepts only the first id. -/
theorem C4_witness :
    loadQueue (flushQueue (fun a => a.id == 1)
        (enqueueEntry ⟨1, CashDirection.cash_out, 7, 2, none, 1⟩ 2 1
          (enqueueEntry ⟨1, CashDirection.cash_in, 5, 1, none, 1⟩ 1 0
            StoredValue.absent).2).2).2 =
      [⟨2, ⟨1, CashDirection.cash_out, 7, 2, none, 1⟩, 1⟩] ∧
    loadQueue (flushQueue (fun _ => true) (flushQueue (fun a => a.id == 1)
        (enqueueEntry ⟨1, CashDirection.cash_out, 7, 2, none, 1⟩ 2 1
          (enqueueEntry ⟨1, CashDirection.cash_in, 5, 1, none, 1⟩ 1 0
            StoredValue.absent).2).2).2).2 = [] := by
  have h := C4_flush_roundtrip StoredValue.absent
    ⟨1, ⟨1, CashDirection.cash_in, 5, 1, none, 1⟩, 0⟩
    ⟨2, ⟨1, CashDirection.cash_out, 7, 2, none, 1⟩, 1⟩
    (fun a => a.id == 1) (fun _ => true)
    (by decide) (by decide)
    (by intro x hx; cases hx)
    (fun _ => rfl)
  exact ⟨h.1, h.2.2⟩

/-- **C7 counterexample.** `flushQueue` resolves with no value: two flush runs
with different processed/failed counts return the very same value, so the
return value cannot be the record `{processed, failed}` the claim states;
likewise two `enqueueEntry` calls generating different ids return the same
value, so no opaque id is returned. -/
theorem C7_counterexample :
    (flushQueue (fun _ => true)
        (StoredValue.jsonArray [⟨1, ⟨1, CashDirection.cash_in, 5, 1, none, 1⟩, 0⟩])).1 =
      (flushQueue (fun _ => false)
        (StoredValue.jsonArray [⟨1, ⟨1, CashDirection.cash_in, 5, 1, none, 1⟩, 0⟩])).1 ∧
    processedCount (fun _ => true) [⟨1, ⟨1, CashDirection.cash_in, 5, 1, none, 1⟩, 0⟩] = 1 ∧
    failedCount (fun _ => true) [⟨1, ⟨1, CashDirection.cash_in, 5, 1, none, 1⟩, 0⟩] = 0 ∧
    processedCount (fun _ => false) [⟨1, ⟨1, CashDirection.cash_in, 5, 1, none, 1⟩, 0⟩] = 0 ∧
    failedCount (fun _ => false) [⟨1, ⟨1, CashDirection.cash_in, 5, 1, none, 1⟩, 0⟩] = 1 ∧
    (enqueueEntry ⟨1, CashDirection.cash_in, 5, 1, none, 1⟩ 1 0 StoredValue.absent).1 =
      (enqueueEntry ⟨1, CashDirection.cash_in, 5, 1, none, 1⟩ 2 0 StoredValue.absent).1 := by
  exact ⟨rfl, rfl, rfl, rfl, rfl, rfl⟩

/-- **C7 (amended).** The queue API's actual contract: `queueSize()` returns
the integer queue length and grows by one per enqueue; `enqueueEntry` returns
nothing and appends one action carrying the internally generated id;
`flushQueue` returns nothing and persists exactly the failed actions, in
order. -/
theorem C7_amended_contract (input : EntryInsertInput) (newId now : Nat)
    (s : StoredValue) (h : QueueAction → Bool) :
    (enqueueEntry input newId now s).1 = () ∧
    loadQueue (enqueueEntry input newId now s).2 = loadQueue s ++ [⟨newId, input, now⟩] ∧
    queueSize (enqueueEntry input newId now s).2 = queueSize s + 1 ∧
    (flushQueue h s).1 = () ∧
    loadQueue (flushQueue h s).2 = (loadQueue s).filter fun a => !h a := by
  refine ⟨rfl, rfl, ?_, rfl, ?_⟩
  · simp [queueSize, enqueueEntry, saveQueue, loadQueue]
  · rw [flushQueue]
    cases hl : loadQueue s with
    | nil => simp [hl]
    | cons x xs =>
        simp only [hl, List.isEmpty_cons, Bool.false_eq_true, if_false,
          flushLoop_eq_filter]
        exact loadQueue_saveQueue _

/-- The update loop of `deleteEntryDirect` leaves a list untouched when no
row matches the `workspace_id`/`id`/`status='active'` filters. -/
theorem deleteEntryRows_noMatch (members : List Member) (cats : List Category)
    (caller : Option Nat) (now ws entryId userId : Nat) (l : List Entry)
    (hnone : ∀ e ∈ l,
      ¬(e.workspace_id = ws ∧ e.id = entryId ∧ e.status = EntryStatus.active)) :
    deleteEntryRows members cats caller now ws entryId userId l = .ok l := by
  induction l with
  | nil => rfl
  | cons e rest ih =>
      have hcond : (e.workspace_id == ws && e.id == entryId &&
          e.status == EntryStatus.active &&
          is_workspace_member members ws caller) = false := by
        by_contra hc
        rw [Bool.not_eq_false] at hc
        simp only [Bool.and_eq_true, beq_iff_eq] at hc
        exact hnone e (List.mem_cons_self e rest) ⟨hc.1.1.1, hc.1.1.2, hc.1.2⟩
      have ih' := ih fun x hx => hnone x (List.mem_cons_of_mem e hx)
      simp [deleteEntryRows, hcond, ih']

/-- **C9.** `deleteEntryDirect` scopes its update to `status='active'` rows:
for a caller holding delete permission, invoking it on an entry that is
already deleted or absent from the workspace completes without error and
changes no entry row — a silent no-op. -/
theorem C9_deleteEntryDirect_silent_noop (caller : Option Nat)
    (now ws entryId userId : Nat) (st : ServerState)
    (hperm : can_delete_entries st.members ws caller = true)
    (hnone : ∀ e ∈ st.entries,
      ¬(e.workspace_id = ws ∧ e.id = entryId ∧ e.status = EntryStatus.active)) :
    deleteEntryDirect caller now ws entryId userId st = .ok st := by
  rw [deleteEntryDirect, hperm]
  simp only [Bool.true_eq_false, if_false]
  rw [deleteEntryRows_noMatch _ _ _ _ _ _ _ _ hnone]

/-- Witness for C9: an admin deleting an already-deleted entry. -/
theorem C9_witness :
    deleteEntryDirect (some 1) 9 1 20 1
      { members := [⟨1, 1, AppRole.admin, true, true, true, DashboardScope.full, false⟩]
        categories := []
        entries := [⟨20, 1, CashDirection.cash_in, 5, 1, 3, 1, EntryStatus.deleted,
          some 4, some 1⟩]
        delete_requests := [] } =
      .ok
      { members := [⟨1, 1, AppRole.admin, true, true, true, DashboardScope.full, false⟩]
        categories := []
        entries := [⟨20, 1, CashDirection.cash_in, 5, 1, 3, 1, EntryStatus.deleted,
          some 4, some 1⟩]
        delete_requests := [] } :=
  C9_deleteEntryDirect_silent_noop (some 1) 9 1 20 1 _ (by decide) (by decide)

theorem mem_insertByEntryAtDesc {a e : Entry} {l : List Entry}
    (h : a ∈ insertByEntryAtDesc e l) : a = e ∨ a ∈ l := by
  induction l with
  | nil =>
      rw [insertByEntryAtDesc] at h
      exact Or.inl (List.mem_singleton.mp h)
  | cons x xs ih =>
      rw [insertByEntryAtDesc] at h
      split at h
      · rcases List.mem_cons.mp h with rfl | h2
        · exact Or.inr (List.mem_cons_self a xs)
        · rcases ih h2 with h3 | h3
          · exact Or.inl h3
          · exact Or.inr (List.mem_cons_of_mem x h3)
      · rcases List.mem_cons.mp h with rfl | h2
        · exact Or.inl rfl
        · exact Or.inr h2

theorem pairwise_insertByEntryAtDesc {e : Entry} {l : List Entry}
    (hl : l.Pairwise fun a b => b.entry_at ≤ a.entry_at) :
    (insertByEntryAtDesc e l).Pairwise fun a b => b.entry_at ≤ a.entry_at := by
  induction l with
  | nil => simp [insertByEntryAtDesc]
  | cons x xs ih =>
      rw [List.pairwise_cons] at hl
      obtain ⟨hx, hxs⟩ := hl
      rw [insertByEntryAtDesc]
      split
      case isTrue hle =>
        rw [List.pairwise_cons]
        refine ⟨fun a ha => ?_, ih hxs⟩
        rcases mem_insertByEntryAtDesc ha with rfl | ha2
        · exact hle
        · exact hx a ha2
      case isFalse hgt =>
        rw [List.pairwise_cons]
        refine ⟨fun a ha => ?_, List.pairwise_cons.mpr ⟨hx, hxs⟩⟩
        rcases List.mem_cons.mp ha with rfl | ha2
        · exact le_of_not_le hgt
        · exact le_trans (hx a ha2) (le_of_not_le hgt)

theorem pairwise_orderByEntryAtDesc (l : List Entry) :
    (orderByEntryAtDesc l).Pairwise fun a b => b.entry_at ≤ a.entry_at := by
  induction l with
  | nil => simp [orderByEntryAtDesc]
  | cons e rest ih =>
      rw [orderByEntryAtDesc]
      exact pairwise_insertByEntryAtDesc ih

theorem mem_orderByEntryAtDesc {a : Entry} {l : List Entry}
    (h : a ∈ orderByEntryAtDesc l) : a ∈ l := by
  induction l with
  | nil => exact h
  | cons e rest ih =>
      rw [orderByEntryAtDesc] at h
      rcases mem_insertByEntryAtDesc h with rfl | h2
      · exact List.mem_cons_self a rest
      · exact List.mem_cons_of_mem e (ih h2)

/-- **C10.** `listEntries` fetches at most `limit` rows ordered by `entry_at`
descending without regard to status and only then filters to
`status='active'`: every returned entry is active and belongs to the
workspace, the result stays sorted by `entry_at` descending and never exceeds
`limit` rows — yet with `limit = 1` a workspace whose newest row is a deleted
entry returns no entries at all, even though an older active entry exists and
is returned once the limit covers it. -/
theorem C10_listEntries_limit_before_status_filter (ws limit : Nat)
    (entries : List Entry) :
    (listEntries ws limit entries).length ≤ limit ∧
    (∀ e ∈ listEntries ws limit entries,
      e.status = EntryStatus.active ∧ e.workspace_id = ws) ∧
    ((listEntries ws limit entries).Pairwise fun a b => b.entry_at ≤ a.entry_at) ∧
    listEntries 1 1
      [⟨9, 1, CashDirection.cash_in, 5, 1, 10, 1, EntryStatus.deleted, some 11, some 1⟩,
       ⟨8, 1, CashDirection.cash_in, 5, 1, 5, 1, EntryStatus.active, none, none⟩] = [] ∧
    listEntries 1 2
      [⟨9, 1, CashDirection.cash_in, 5, 1, 10, 1, EntryStatus.deleted, some 11, some 1⟩,
       ⟨8, 1, CashDirection.cash_in, 5, 1, 5, 1, EntryStatus.active, none, none⟩] =
      [⟨8, 1, CashDirection.cash_in, 5, 1, 5, 1, EntryStatus.active, none, none⟩] := by
  refine ⟨?_, ?_, ?_, by decide, by decide⟩
  · calc (listEntries ws limit entries).length
        ≤ ((orderByEntryAtDesc (entries.filter fun e => e.workspace_id == ws)).take
            limit).length := List.length_filter_le _ _
      _ ≤ limit := by rw [List.length_take]; exact min_le_left _ _
  · intro e he
    rw [listEntries, List.mem_filter] at he
    obtain ⟨htake, hstatus⟩ := he
    have hmem : e ∈ orderByEntryAtDesc (entries.filter fun e => e.workspace_id == ws) :=
      List.take_subset _ _ htake
    have hws : e ∈ entries.filter fun e => e.workspace_id == ws :=
      mem_orderByEntryAtDesc hmem
    rw [List.mem_filter] at hws
    exact ⟨beq_iff_eq.mp hstatus, beq_iff_eq.mp hws.2⟩
  · rw [listEntries]
    exact ((pairwise_orderByEntryAtDesc _).sublist (List.take_sublist _ _)).sublist
      (List.filter_sublist _)

theorem lookupCategory_some {cats : List Category} {ws cid : Nat} {c : Category}
    (h : lookupCategory cats ws cid = some c) :
    c ∈ cats ∧ c.workspace_id = ws ∧ c.id = cid ∧ c.is_active = true := by
  have hmem := List.mem_of_find?_eq_some h
  have hp := List.find?_some h
  simp only [Bool.and_eq_true, beq_iff_eq] at hp
  exact ⟨hmem, hp.1.1, hp.1.2, hp.2⟩

theorem entryRulesTail_ok {cats : List Category} {caller : Option Nat} {now : Nat}
    {new e : Entry} (h : entryRulesTail cats caller now new = .ok e) :
    ∃ c, lookupCategory cats new.workspace_id new.category_id = some c ∧
      e.workspace_id = new.workspace_id ∧ e.category_id = new.category_id ∧
      e.direction = new.direction ∧
      ¬(new.direction = CashDirection.cash_out ∧ c.type ≠ CategoryType.expense) ∧
      ¬(new.direction = CashDirection.cash_in ∧ c.type ≠ CategoryType.income) := by
  rw [entryRulesTail] at h
  split at h
  next hlk => exact Except.noConfusion h
  next c hlk =>
    split_ifs at h with h1 h2 h3 <;>
      first
      | exact Except.noConfusion h
      | (injection h with he
         exact ⟨c, hlk, by rw [← he], by rw [← he], by rw [← he], h1, h2⟩)

/-- `enforce_entry_rules` either raises in one of the update-only pre-checks
or delegates to the shared category/direction tail on the incoming row. -/
theorem enforce_reaches_tail (members : List Member) (cats : List Category)
    (caller : Option Nat) (now : Nat) (w : EntryWrite) :
    (∃ msg, enforce_entry_rules members cats caller now w = .error msg) ∨
    enforce_entry_rules members cats caller now w =
      entryRulesTail cats caller now w.newRow := by
  cases w with
  | insert new => exact Or.inr rfl
  | update old new =>
      rw [enforce_entry_rules]
      split
      · exact Or.inl ⟨_, rfl⟩
      split
      · exact Or.inl ⟨_, rfl⟩
      split
      · exact Or.inl ⟨_, rfl⟩
      split
      · exact Or.inl ⟨_, rfl⟩
      · exact Or.inr rfl

/-- **C1.** Every entry write the trigger lets through carries a direction
matching its category's current type: if `enforce_entry_rules` persists a
row, an active category with the row's `(workspace_id, category_id)` exists
and `direction=cash_in ⟺ type=income`, `direction=cash_out ⟺ type=expense`;
a write whose resolved category is missing or inactive is rejected, and so is
a type-mismatched one — all evaluated against the table state passed to this
very write, independent of anything the client saw earlier. -/
theorem C1_persisted_entry_matches_category (members : List Member)
    (cats : List Category) (caller : Option Nat) (now : Nat) (w : EntryWrite) :
    (∀ e, enforce_entry_rules members cats caller now w = .ok e →
      ∃ c, c ∈ cats ∧
        lookupCategory cats w.newRow.workspace_id w.newRow.category_id = some c ∧
        c.is_active = true ∧ c.workspace_id = e.workspace_id ∧ c.id = e.category_id ∧
        (e.direction = CashDirection.cash_in ↔ c.type = CategoryType.income) ∧
        (e.direction = CashDirection.cash_out ↔ c.type = CategoryType.expense)) ∧
    (lookupCategory cats w.newRow.workspace_id w.newRow.category_id = none →
      isErr (enforce_entry_rules members cats caller now w) = true) ∧
    (∀ c, lookupCategory cats w.newRow.workspace_id w.newRow.category_id = some c →
      ((w.newRow.direction = CashDirection.cash_in ∧ c.type = CategoryType.expense) ∨
       (w.newRow.direction = CashDirection.cash_out ∧ c.type = CategoryType.income)) →
      isErr (enforce_entry_rules members cats caller now w) = true) := by
  refine ⟨?_, ?_, ?_⟩
  · intro e hok
    rcases enforce_reaches_tail members cats caller now w with ⟨msg, heq⟩ | htail
    · rw [heq] at hok; exact Except.noConfusion hok
    · rw [htail] at hok
      obtain ⟨c, hlk, hws, hcid, hdir, hn1, hn2⟩ := entryRulesTail_ok hok
      obtain ⟨hmem, hcws, hccid, hact⟩ := lookupCategory_some hlk
      refine ⟨c, hmem, hlk, hact, by rw [hcws, hws], by rw [hccid, hcid], ?_, ?_⟩ <;>
        · rw [hdir]
          cases hd : w.newRow.direction <;> cases ht : c.type <;>
            simp_all

  · intro hnone
    rcases enforce_reaches_tail members cats caller now w with ⟨msg, heq⟩ | htail
    · rw [heq]; rfl
    · rw [htail, entryRulesTail, hnone]; rfl
  · intro c hlk hmis
    rcases enforce_reaches_tail members cats caller now w with ⟨msg, heq⟩ | htail
    · rw [heq]; rfl
    · rw [htail, entryRulesTail]
      split
      next hnone => rfl
      next c' hsome =>
        rw [hlk] at hsome
        injection hsome with hc
        subst hc
        rcases hmis with ⟨hd, ht⟩ | ⟨hd, ht⟩
        · have hne1 : ¬(w.newRow.direction = CashDirection.cash_out ∧
              c.type ≠ CategoryType.expense) := by
            rintro ⟨hcon, -⟩
            rw [hd] at hcon
            exact CashDirection.noConfusion hcon
          have hp2 : w.newRow.direction = CashDirection.cash_in ∧
              c.type ≠ CategoryType.income := by
            refine ⟨hd, ?_⟩
            rw [ht]
            exact fun hcon => CategoryType.noConfusion hcon
          rw [if_neg hne1, if_pos hp2]
          rfl
        · have hp1 : w.newRow.direction = CashDirection.cash_out ∧
              c.type ≠ CategoryType.expense := by
            refine ⟨hd, ?_⟩
            rw [ht]
            exact fun hcon => CategoryType.noConfusion hcon
          rw [if_pos hp1]
          rfl

/-- Witness for C1: a missing category and a direction/type mismatch are
both rejected at concrete inputs. -/
theorem C1_witness :
    isErr (enforce_entry_rules [] [] (some 1) 0
      (.insert ⟨20, 1, CashDirection.cash_in, 5, 1, 3, 1, EntryStatus.active,
        none, none⟩)) = true ∧
    isErr (enforce_entry_rules [] [⟨1, 1, CategoryType.expense, true⟩] (some 1) 0
      (.insert ⟨20, 1, CashDirection.cash_in, 5, 1, 3, 1, EntryStatus.active,
        none, none⟩)) = true :=
  ⟨(C1_persisted_entry_matches_category [] [] (some 1) 0 _).2.1 rfl,
   (C1_persisted_entry_matches_category [] [⟨1, 1, CategoryType.expense, true⟩]
      (some 1) 0 _).2.2 ⟨1, 1, CategoryType.expense, true⟩ (by decide)
      (Or.inl ⟨rfl, rfl⟩)⟩

theorem enabledRow_eq_none {members : List Member} {ws u : Nat}
    (h : ∀ m ∈ members, m.workspace_id = ws → m.user_id = u →
      m.access_disabled = true) :
    enabledRow members ws (some u) = none := by
  rw [enabledRow, List.find?_eq_none]
  intro m hm hp
  simp only [Bool.and_eq_true, beq_iff_eq] at hp
  exact Bool.noConfusion ((h m hm hp.1.1 hp.1.2).symm.trans hp.2)

theorem authPredicates_false_of_enabledRow_none {members : List Member}
    {ws : Nat} {u : Option Nat} (h : enabledRow members ws u = none) :
    is_workspace_member members ws u = false ∧
    is_workspace_admin members ws u = false ∧
    can_manage_users members ws u = false ∧
    can_manage_categories members ws u = false ∧
    can_delete_entries members ws u = false := by
  rw [is_workspace_member, is_workspace_admin, can_manage_users,
    can_manage_categories, can_delete_entries, h]
  exact ⟨rfl, rfl, rfl, rfl, rfl⟩

theorem normalize_member_permissions_preserves (m : Member) :
    (normalize_member_permissions m).workspace_id = m.workspace_id ∧
    (normalize_member_permissions m).user_id = m.user_id ∧
    (normalize_member_permissions m).role = m.role := by
  rw [normalize_member_permissions]
  split <;> exact ⟨rfl, rfl, rfl⟩

/-- **C6.** A membership row with `access_disabled=true` is excluded from
every authorization predicate — `is_workspace_member`, `is_workspace_admin`,
`can_manage_users`, `can_manage_categories`, `can_delete_entries` all return
`false`, exactly as they do for a user with no membership row at all — while
the disable RPC updates rather than deletes: it leaves the entries table
(hence `created_by` attribution) untouched and keeps every membership row in
place with its identity and role. -/
theorem C6_disabled_member_fully_excluded (members : List Member) (ws u : Nat)
    (hdis : ∀ m ∈ members, m.workspace_id = ws → m.user_id = u →
      m.access_disabled = true) :
    (is_workspace_member members ws (some u) = false ∧
     is_workspace_admin members ws (some u) = false ∧
     can_manage_users members ws (some u) = false ∧
     can_manage_categories members ws (some u) = false ∧
     can_delete_entries members ws (some u) = false) ∧
    (∀ v, (∀ m ∈ members, ¬(m.workspace_id = ws ∧ m.user_id = v)) →
      is_workspace_member members ws (some v) = false ∧
      is_workspace_admin members ws (some v) = false ∧
      can_manage_users members ws (some v) = false ∧
      can_manage_categories members ws (some v) = false ∧
      can_delete_entries members ws (some v) = false) ∧
    (∀ caller ws' target disabled st st',
      set_workspace_member_access_disabled_state caller ws' target disabled st =
        .ok st' →
      st'.entries = st.entries ∧
      st'.members.length = st.members.length ∧
      ∀ m ∈ st.members, ∃ m' ∈ st'.members,
        m'.workspace_id = m.workspace_id ∧ m'.user_id = m.user_id ∧
        m'.role = m.role) := by
  refine ⟨authPredicates_false_of_enabledRow_none (enabledRow_eq_none hdis),
    fun v hv => authPredicates_false_of_enabledRow_none (enabledRow_eq_none
      fun m hm hws hu => absurd ⟨hws, hu⟩ (hv m hm)), ?_⟩
  intro caller ws' target disabled st st' hok
  rw [set_workspace_member_access_disabled_state] at hok
  cases hrpc : set_workspace_member_access_disabled caller ws' target disabled
      st.members with
  | error msg => rw [hrpc] at hok; exact Except.noConfusion hok
  | ok ms =>
      rw [hrpc] at hok
      injection hok with hst'
      rw [set_workspace_member_access_disabled.eq_def] at hrpc
      split at hrpc
      next => exact Except.noConfusion hrpc
      next cu =>
        split_ifs at hrpc with h1 h2
        split at hrpc
        next => exact Except.noConfusion hrpc
        next t hfind =>
          split_ifs at hrpc with h3
          injection hrpc with hms
          subst hms
          subst hst'
          refine ⟨rfl, List.length_map _ _, ?_⟩
          intro m hm
          refine ⟨_, List.mem_map_of_mem _ hm, ?_⟩
          by_cases hkey : (m.workspace_id == ws' && m.user_id == target) = true
          · rw [if_pos hkey]
            obtain ⟨p1, p2, p3⟩ := normalize_member_permissions_preserves
              { m with access_disabled := disabled }
            exact ⟨p1, p2, p3⟩
          · rw [if_neg hkey]
            exact ⟨rfl, rfl, rfl⟩

/-- Witness for C6 at a concrete disabled editor row. -/
theorem C6_witness :
    is_workspace_member
      [⟨1, 5, AppRole.editor, true, true, true, DashboardScope.shift, true⟩]
      1 (some 5) = false ∧
    is_workspace_admin
      [⟨1, 5, AppRole.editor, true, true, true, DashboardScope.shift, true⟩]
      1 (some 5) = false ∧
    can_delete_entries
      [⟨1, 5, AppRole.editor, true, true, true, DashboardScope.shift, true⟩]
      1 (some 5) = false := by
  have h := C6_disabled_member_fully_excluded
    [⟨1, 5, AppRole.editor, true, true, true, DashboardScope.shift, true⟩]
    1 5 (by decide)
  exact ⟨h.1.1, h.1.2.1, h.1.2.2.2.2⟩

/-- **C2 counterexample.** The direct role-demotion path is not guarded: in a
workspace whose only enabled admin is user 1, user 2 (an editor holding
`can_manage_users`) demotes user 1 to editor through the client's
`updateWorkspaceMemberRole` — a plain row update permitted by the
`workspace_members_update_admin` policy — and the call succeeds silently,
leaving the workspace with zero enabled admins. -/
theorem C2_counterexample :
    enabledAdminCount
      [⟨1, 1, AppRole.admin, true, true, true, DashboardScope.full, false⟩,
       ⟨1, 2, AppRole.editor, false, false, true, DashboardScope.shift, false⟩] 1 = 1 ∧
    updateWorkspaceMemberRole (some 2) 1 1 (memberRolePayload AppRole.editor false false)
      [⟨1, 1, AppRole.admin, true, true, true, DashboardScope.full, false⟩,
       ⟨1, 2, AppRole.editor, false, false, true, DashboardScope.shift, false⟩] =
      [⟨1, 1, AppRole.editor, false, false, false, DashboardScope.shift, false⟩,
       ⟨1, 2, AppRole.editor, false, false, true, DashboardScope.shift, false⟩] ∧
    enabledAdminCount
      [⟨1, 1, AppRole.editor, false, false, false, DashboardScope.shift, false⟩,
       ⟨1, 2, AppRole.editor, false, false, true, DashboardScope.shift, false⟩] 1 = 0 := by
  decide

/-- **C2 (amended).** The last-enabled-admin guard holds on the two
membership RPCs: when the target row is an enabled admin and the workspace
has at most one enabled admin, both `set_workspace_member_access_disabled
(disabled=true)` and `remove_workspace_member` raise an error for every
caller, leaving the membership table unchanged; the direct table-update path
(role demotion) carries no such guard (see the counterexample). -/
theorem C2_amended_rpc_guards (caller : Option Nat) (members : List Member)
    (ws target : Nat) (t : Member)
    (hfind : members.find?
      (fun m => m.workspace_id == ws && m.user_id == target) = some t)
    (hrole : t.role = AppRole.admin) (hen : t.access_disabled = false)
    (hcount : enabledAdminCount members ws ≤ 1) :
    isErr (set_workspace_member_access_disabled caller ws target true members) =
      true ∧
    isErr (remove_workspace_member caller ws target members) = true := by
  constructor
  · rw [set_workspace_member_access_disabled.eq_def]
    split
    next => rfl
    next cu =>
      split_ifs with h1 h2
      · rfl
      · rfl
      split
      next hnone => rw [hfind] at hnone; exact Option.noConfusion hnone
      next t' hfind' =>
        rw [hfind] at hfind'
        injection hfind' with ht
        subst ht
        rw [if_pos ⟨rfl, hrole, hen, hcount⟩]
        rfl
  · rw [remove_workspace_member.eq_def]
    split
    next => rfl
    next cu =>
      split_ifs with h1 h2
      · rfl
      · rfl
      split
      next hnone => rw [hfind] at hnone; exact Option.noConfusion hnone
      next t' hfind' =>
        rw [hfind] at hfind'
        injection hfind' with ht
        subst ht
        rw [if_pos ⟨hrole, hen, hcount⟩]
        rfl

/-- Witness for the amended C2 guard at a single-admin workspace. -/
theorem C2_witness :
    isErr (set_workspace_member_access_disabled (some 2) 1 1 true
      [⟨1, 1, AppRole.admin, true, true, true, DashboardScope.full, false⟩]) = true ∧
    isErr (remove_workspace_member (some 2) 1 1
      [⟨1, 1, AppRole.admin, true, true, true, DashboardScope.full, false⟩]) = true :=
  C2_amended_rpc_guards (some 2)
    [⟨1, 1, AppRole.admin, true, true, true, DashboardScope.full, false⟩]
    1 1 ⟨1, 1, AppRole.admin, true, true, true, DashboardScope.full, false⟩
    (by decide) rfl rfl (by decide)

/-- **C3 counterexample.** Calling the client `reviewDeleteRequest` with
decision `approved` on a delete request that is already `approved` does not
fail: the update is filtered to `status = 'pending'`, matches zero rows, the
`AlreadyFinalized`-raising trigger never fires, and the call returns
successfully with the state unchanged — a silent success, not an error. -/
theorem C3_counterexample :
    reviewDeleteRequest (some 1) 50 10 DeleteRequestStatus.approved none
      { members := [⟨1, 1, AppRole.admin, true, true, true, DashboardScope.full, false⟩]
        categories := []
        entries := [⟨20, 1, CashDirection.cash_in, 5, 1, 3, 1, EntryStatus.deleted,
          some 4, some 1⟩]
        delete_requests := [⟨10, 1, 20, 2, "wrong amount",
          DeleteRequestStatus.approved, some 1, some 4, none⟩] } =
      .ok
      { members := [⟨1, 1, AppRole.admin, true, true, true, DashboardScope.full, false⟩]
        categories := []
        entries := [⟨20, 1, CashDirection.cash_in, 5, 1, 3, 1, EntryStatus.deleted,
          some 4, some 1⟩]
        delete_requests := [⟨10, 1, 20, 2, "wrong amount",
          DeleteRequestStatus.approved, some 1, some 4, none⟩] } := by
  rfl

theorem reviewDeleteRequestRows_skip (members : List Member)
    (caller : Option Nat) (now rid : Nat) (status : DeleteRequestStatus)
    (note : Option String) (l : List DeleteRequest) (entries : List Entry)
    (h : ∀ r ∈ l, r.id = rid → r.status ≠ DeleteRequestStatus.pending) :
    reviewDeleteRequestRows members caller now rid status note l entries =
      .ok (l, entries) := by
  induction l with
  | nil => rfl
  | cons r rest ih =>
      have hcond : (r.id == rid && r.status == DeleteRequestStatus.pending &&
          can_delete_entries members r.workspace_id caller) = false := by
        by_contra hc
        rw [Bool.not_eq_false] at hc
        simp only [Bool.and_eq_true, beq_iff_eq] at hc
        exact h r (List.mem_cons_self r rest) hc.1.1 hc.1.2
      have ih' := ih fun x hx => h x (List.mem_cons_of_mem r hx)
      simp [reviewDeleteRequestRows, hcond, ih']

/-- **C3 (amended).** A direct update reaching a finalized delete request
does raise `Delete request already finalized` (the trigger), and an entry
never transitions deleted→active — but the client `reviewDeleteRequest`
scopes its update to `status='pending'` rows, so reviewing an
already-finalized request is a silent successful no-op rather than an
`AlreadyFinalized` failure. -/
theorem C3_amended_finalized_review_behaviour :
    (∀ (caller : Option Nat) (now : Nat) (old new : DeleteRequest)
        (entries : List Entry),
      old.status ≠ DeleteRequestStatus.pending →
      handle_delete_request_review caller now old new entries =
        .error "Delete request already finalized") ∧
    (∀ (caller : Option Nat) (now rid : Nat) (status : DeleteRequestStatus)
        (note : Option String) (st : ServerState),
      (∀ r ∈ st.delete_requests, r.id = rid →
        r.status ≠ DeleteRequestStatus.pending) →
      reviewDeleteRequest caller now rid status note st = .ok st) ∧
    (∀ (members : List Member) (cats : List Category) (caller : Option Nat)
        (now : Nat) (old new e : Entry),
      enforce_entry_rules members cats caller now (.update old new) = .ok e →
      old.status ≠ EntryStatus.deleted) ∧
    (∀ (ws eid : Nat) (reviewer : Option Nat) (now : Nat) (entries : List Entry)
        (e' : Entry),
      e' ∈ softDeleteEntries ws eid reviewer now entries →
      e'.status = EntryStatus.active → e' ∈ entries) := by
  refine ⟨?_, ?_, ?_, ?_⟩
  · intro caller now old new entries h
    rw [handle_delete_request_review, if_pos h]
  · intro caller now rid status note st h
    rw [reviewDeleteRequest, reviewDeleteRequestRows_skip _ _ _ _ _ _ _ _ h]
  · intro members cats caller now old new e hok hdel
    rw [enforce_entry_rules] at hok
    split_ifs at hok with h1 h2
  · intro ws eid reviewer now entries e' hmem hact
    rw [softDeleteEntries] at hmem
    obtain ⟨x, hx, hfx⟩ := List.mem_map.mp hmem
    by_cases hkey : (x.workspace_id == ws && x.id == eid &&
        x.status == EntryStatus.active) = true
    · rw [if_pos hkey] at hfx
      rw [← hfx] at hact
      exact absurd hact (by exact fun hcon => EntryStatus.noConfusion hcon)
    · rw [if_neg hkey] at hfx
      rw [← hfx]
      exact hx

/-- Witness for the amended C3: the trigger raises at a concrete finalized
request. -/
theorem C3_witness :
    handle_delete_request_review (some 1) 0
      ⟨10, 1, 20, 2, "wrong amount", DeleteRequestStatus.approved, some 1, some 4, none⟩
      ⟨10, 1, 20, 2, "wrong amount", DeleteRequestStatus.approved, some 1, some 4, none⟩
      [] = .error "Delete request already finalized" :=
  C3_amended_finalized_review_behaviour.1 (some 1) 0 _ _ [] (by decide)

theorem applyRequestedColumns_key (req : AccessRequest) (m : Member) :
    memberKeyMatches req (applyRequestedColumns req m) = memberKeyMatches req m := by
  obtain ⟨p1, p2, -⟩ := normalize_member_permissions_preserves
    { m with
        role := (requestedMemberRow req).role
        can_delete_entries := (requestedMemberRow req).can_delete_entries
        can_manage_categories := (requestedMemberRow req).can_manage_categories
        can_manage_users := (requestedMemberRow req).can_manage_users
        dashboard_scope := (requestedMemberRow req).dashboard_scope }
  rw [memberKeyMatches, applyRequestedColumns, p1, p2, memberKeyMatches]

theorem applyRequestedColumns_admin (req : AccessRequest) (m : Member)
    (hrole : req.role = AppRole.admin) :
    (applyRequestedColumns req m).role = AppRole.admin ∧
    (applyRequestedColumns req m).can_delete_entries = true ∧
    (applyRequestedColumns req m).can_manage_categories = true ∧
    (applyRequestedColumns req m).can_manage_users = true ∧
    (applyRequestedColumns req m).dashboard_scope = DashboardScope.full := by
  simp [applyRequestedColumns, requestedMemberRow, normalize_member_permissions, hrole]

theorem find?_upsert_of_any (req : AccessRequest) (members : List Member)
    (hany : members.any (memberKeyMatches req) = true) :
    ∃ m x, (members.map fun y =>
        if memberKeyMatches req y then applyRequestedColumns req y else y).find?
      (memberKeyMatches req) = some m ∧ memberKeyMatches req x = true ∧
      m = applyRequestedColumns req x := by
  induction members with
  | nil => exact absurd hany (by simp)
  | cons a rest ih =>
      by_cases hpa : memberKeyMatches req a = true
      · refine ⟨applyRequestedColumns req a, a, ?_, hpa, rfl⟩
        rw [List.map_cons, if_pos hpa]
        exact List.find?_cons_of_pos _ ((applyRequestedColumns_key req a).trans hpa)
      · have hpa' : memberKeyMatches req a = false := Bool.eq_false_iff.mpr hpa
        have hrest : rest.any (memberKeyMatches req) = true := by
          simpa [List.any_cons, hpa'] using hany
        obtain ⟨m, x, hfind, hpx, hm⟩ := ih hrest
        refine ⟨m, x, ?_, hpx, hm⟩
        rw [List.map_cons, if_neg hpa, List.find?_cons_of_neg _ hpa]
        exact hfind

theorem upsertMemberFromRequest_admin_row (req : AccessRequest)
    (members : List Member) (hrole : req.role = AppRole.admin) :
    ∃ m, (upsertMemberFromRequest req members).find? (memberKeyMatches req) =
        some m ∧
      m.role = AppRole.admin ∧ m.can_delete_entries = true ∧
      m.can_manage_categories = true ∧ m.can_manage_users = true ∧
      m.dashboard_scope = DashboardScope.full := by
  rw [upsertMemberFromRequest]
  split
  next hany =>
    obtain ⟨m, x, hfind, -, hm⟩ := find?_upsert_of_any req members hany
    obtain ⟨r1, r2, r3, r4, r5⟩ := applyRequestedColumns_admin req x hrole
    subst hm
    exact ⟨_, hfind, r1, r2, r3, r4, r5⟩
  next hany =>
    have hnone : members.find? (memberKeyMatches req) = none := by
      rw [List.find?_eq_none]
      intro x hx hpx
      exact hany (List.any_eq_true.mpr ⟨x, hx, hpx⟩)
    have hkey : memberKeyMatches req
        (normalize_member_permissions (requestedMemberRow req)) = true := by
      obtain ⟨p1, p2, -⟩ := normalize_member_permissions_preserves (requestedMemberRow req)
      rw [memberKeyMatches, p1, p2]
      simp [requestedMemberRow]
    refine ⟨normalize_member_permissions (requestedMemberRow req), ?_,
      ?_, ?_, ?_, ?_, ?_⟩
    · rw [List.find?_append, hnone, Option.none_or]
      exact List.find?_cons_of_pos _ hkey
    all_goals simp [normalize_member_permissions, requestedMemberRow, hrole]

/-- **C5.** Accepting an AccessRequest that proposes `role=admin` produces a
membership row with `can_delete_entries`, `can_manage_categories` and
`can_manage_users` all `true` and `dashboard_scope=full`, for every
combination of capability flags proposed on the request — the RPC forces the
flags for admins and the `normalize_member_permissions` trigger forces them
again on the written row. -/
theorem C5_admin_grant_full_flags (cu now rid : Nat)
    (requests : List AccessRequest) (members : List Member) (req : AccessRequest)
    (hfind : requests.find? (fun r => r.id == rid && r.target_user_id == cu &&
      r.status == AccessRequestStatus.pending) = some req)
    (hrole : req.role = AppRole.admin) :
    respond_workspace_access_request (some cu) now rid "accept" requests members =
      .ok (req.workspace_id,
        requests.map (fun r => if r.id == req.id then
          { r with status := AccessRequestStatus.accepted } else r),
        upsertMemberFromRequest req members) ∧
    ∃ m, (upsertMemberFromRequest req members).find? (memberKeyMatches req) =
        some m ∧
      m.role = AppRole.admin ∧ m.can_delete_entries = true ∧
      m.can_manage_categories = true ∧ m.can_manage_users = true ∧
      m.dashboard_scope = DashboardScope.full := by
  constructor
  · have hd : sqlTrimLower "accept" = "accept" := by decide
    rw [respond_workspace_access_request.eq_def]
    simp [hd, hfind]
  · exact upsertMemberFromRequest_admin_row req members hrole

/-- Witness for C5: an admin grant proposing all-false flags still yields an
all-true admin membership row. -/
theorem C5_witness :
    respond_workspace_access_request (some 7) 3 10 "accept"
      [⟨10, 1, 7, 1, AppRole.admin, false, false, AccessRequestStatus.pending⟩] [] =
      .ok (1,
        [⟨10, 1, 7, 1, AppRole.admin, false, false, AccessRequestStatus.accepted⟩],
        [⟨1, 7, AppRole.admin, true, true, true, DashboardScope.full, false⟩]) :=
  (C5_admin_grant_full_flags 7 3 10
    [⟨10, 1, 7, 1, AppRole.admin, false, false, AccessRequestStatus.pending⟩] []
    ⟨10, 1, 7, 1, AppRole.admin, false, false, AccessRequestStatus.pending⟩
    (by decide) rfl).1

end Cashbook
